import Mathlib

/-!
Shallow embedding of `src/librustc_hir/hir.rs` (the HIR data model of a
compiler frontend) together with proofs about its derived operations:
whole-crate traversal, identifier lookup, the place-expression test,
range-literal recognition, pattern walking, drop-temporaries unwrapping,
the generics accessor and lifetime elision.

Rust machine integers (`usize`) are modelled as `Nat`; arena references
(`&'hir T`) as plain values; slices as `List`; `Option`/`Result` as
`Option`/`Except`; a panic (fatal error) as `Option.none` of the result.
-/

namespace RustcHir

/-- Source span, `rustc_span::Span` (consumed, not defined, by `hir.rs`):
modelled as its lo/hi byte positions. -/
structure Span where
  lo : Nat
  hi : Nat
deriving DecidableEq, Repr

/-- `syntax::ast::Ident` (consumed by `hir.rs`): modelled by its name. -/
abbrev Ident := String

/-- `rustc_span::symbol::Symbol` (consumed by `hir.rs`). -/
abbrev Symbol := String

/-- `syntax::ast::Name` (consumed by `hir.rs`). -/
abbrev Name := String

/-- `crate::hir_id::HirId` (consumed by `hir.rs`): a node identifier,
an owner index paired with an index local to that owner.  Its derived
`Ord` is lexicographic on the two fields. -/
structure HirId where
  owner : Nat
  local_id : Nat
deriving DecidableEq, Repr

/-- The lexicographic key underlying the derived `Ord` of `HirId`. -/
def HirId.toLexPair (h : HirId) : Lex (Nat × Nat) :=
  toLex (h.owner, h.local_id)

theorem HirId.toLexPair_injective : Function.Injective HirId.toLexPair := by
  intro a b h
  cases a
  cases b
  simpa [HirId.toLexPair, toLex, Prod.ext_iff] using h

instance : LinearOrder HirId :=
  LinearOrder.lift' HirId.toLexPair HirId.toLexPair_injective

/-- `crate::def_id::DefId` (consumed by `hir.rs`): a cross-crate-stable
definition identifier. -/
structure DefId where
  krate : Nat
  index : Nat
deriving DecidableEq, Repr

/-- `hir.rs` line 1220: key of a body in the crate aggregate. -/
structure BodyId where
  hir_id : HirId
deriving DecidableEq, Repr

instance : LinearOrder BodyId :=
  LinearOrder.lift' BodyId.hir_id (fun a b h => by cases a; cases b; simpa using h)

/-- `hir.rs` line 1832: key of a trait item in the crate aggregate. -/
structure TraitItemId where
  hir_id : HirId
deriving DecidableEq, Repr

instance : LinearOrder TraitItemId :=
  LinearOrder.lift' TraitItemId.hir_id (fun a b h => by cases a; cases b; simpa using h)

/-- `hir.rs` line 1876: key of an impl item in the crate aggregate. -/
structure ImplItemId where
  hir_id : HirId
deriving DecidableEq, Repr

instance : LinearOrder ImplItemId :=
  LinearOrder.lift' ImplItemId.hir_id (fun a b h => by cases a; cases b; simpa using h)

/-- `hir.rs` line 2386: key of an item in a module's item list. -/
structure ItemId where
  id : HirId
deriving DecidableEq, Repr

end RustcHir

namespace BTreeModel

/-!
A model of `std::collections::BTreeMap` as used by the crate aggregate:
a strictly key-sorted association list.  `insert` keeps the list sorted
and replaces the value on an equal key; `ofList` builds the map by
inserting the entries of an (arbitrarily ordered) insertion sequence;
iteration over the map is iteration over the underlying sorted list.
-/

variable {K : Type} [LinearOrder K] {V : Type}

/-- The strict key order between entries under which a map's entry list
is sorted. -/
def entryLt (a b : K × V) : Prop := a.1 < b.1

/-- `BTreeMap::insert`: place `(k, v)` at its sorted position, replacing
any existing entry with key `k`. -/
def insert (k : K) (v : V) : List (K × V) → List (K × V)
  | [] => [(k, v)]
  | (k', v') :: rest =>
    if k < k' then (k, v) :: (k', v') :: rest
    else if k = k' then (k, v) :: rest
    else (k', v') :: insert k v rest

/-- Build a map by inserting the entries of `l` in order. -/
def ofList (l : List (K × V)) : List (K × V) :=
  l.foldl (fun m kv => insert kv.1 kv.2 m) []

/-- `BTreeMap::get` / `Index` lookup over the entry list. -/
def lookup (k : K) : List (K × V) → Option V
  | [] => none
  | (k', v') :: rest => if k = k' then some v' else lookup k rest

theorem mem_insert {k : K} {v : V} {m : List (K × V)} {x : K × V}
    (h : x ∈ insert k v m) : x = (k, v) ∨ x ∈ m := by
  induction m with
  | nil =>
    simp only [insert, List.mem_singleton] at h
    exact Or.inl h
  | cons hd tl ih =>
    obtain ⟨k', v'⟩ := hd
    simp only [insert] at h
    by_cases h1 : k < k'
    · rw [if_pos h1] at h
      rcases List.mem_cons.mp h with h | h
      · exact Or.inl h
      · exact Or.inr h
    · rw [if_neg h1] at h
      by_cases h2 : k = k'
      · rw [if_pos h2] at h
        rcases List.mem_cons.mp h with h | h
        · exact Or.inl h
        · exact Or.inr (List.mem_cons_of_mem _ h)
      · rw [if_neg h2] at h
        rcases List.mem_cons.mp h with h | h
        · exact Or.inr (by simp [h])
        · rcases ih h with h | h
          · exact Or.inl h
          · exact Or.inr (List.mem_cons_of_mem _ h)

theorem sorted_insert {k : K} {v : V} {m : List (K × V)}
    (h : m.Pairwise (entryLt (K := K) (V := V))) :
    (insert k v m).Pairwise (entryLt (K := K) (V := V)) := by
  induction m with
  | nil => simp [insert, entryLt]
  | cons hd tl ih =>
    obtain ⟨k', v'⟩ := hd
    rcases List.pairwise_cons.mp h with ⟨hhd, htl⟩
    simp only [insert]
    by_cases h1 : k < k'
    · rw [if_pos h1]
      refine List.pairwise_cons.mpr ⟨?_, h⟩
      intro x hx
      rcases List.mem_cons.mp hx with hx | hx
      · rw [hx]
        exact h1
      · exact lt_trans h1 (hhd x hx)
    · rw [if_neg h1]
      by_cases h2 : k = k'
      · rw [if_pos h2]
        refine List.pairwise_cons.mpr ⟨?_, htl⟩
        intro x hx
        have hlt : k' < x.1 := hhd x hx
        show k < x.1
        rw [h2]
        exact hlt
      · rw [if_neg h2]
        refine List.pairwise_cons.mpr ⟨?_, ih htl⟩
        intro x hx
        rcases mem_insert hx with hx | hx
        · have h3 : k' < k := by
            rcases lt_trichotomy k k' with h | h | h
            · exact absurd h h1
            · exact absurd h h2
            · exact h
          rw [hx]
          exact h3
        · exact hhd x hx

theorem sorted_ofList (l : List (K × V)) :
    (ofList l).Pairwise (entryLt (K := K) (V := V)) := by
  suffices h : ∀ m : List (K × V), m.Pairwise (entryLt (K := K) (V := V)) →
      (l.foldl (fun m kv => insert kv.1 kv.2 m) m).Pairwise (entryLt (K := K) (V := V)) by
    exact h [] (by simp)
  induction l with
  | nil => intro m hm; simpa using hm
  | cons hd tl ih =>
    intro m hm
    exact ih _ (sorted_insert hm)

theorem insert_perm_of_not_mem {k : K} {v : V} {m : List (K × V)}
    (h : k ∉ m.map Prod.fst) : (insert k v m).Perm ((k, v) :: m) := by
  induction m with
  | nil => simp [insert]
  | cons hd tl ih =>
    obtain ⟨k', v'⟩ := hd
    have hk1 : k ≠ k' := by
      intro he
      exact h (by simp [he])
    have hk2 : k ∉ tl.map Prod.fst := by
      intro he
      exact h (by simp [he])
    simp only [insert]
    by_cases h1 : k < k'
    · rw [if_pos h1]
    · rw [if_neg h1, if_neg hk1]
      exact (List.Perm.cons _ (ih hk2)).trans (List.Perm.swap _ _ _)

theorem foldl_insert_perm :
    ∀ (l m : List (K × V)),
      ((m.map Prod.fst) ++ (l.map Prod.fst)).Nodup →
      m.Pairwise (entryLt (K := K) (V := V)) →
      (l.foldl (fun m kv => insert kv.1 kv.2 m) m).Perm (m ++ l) := by
  intro l
  induction l with
  | nil =>
    intro m _ _
    simp only [List.foldl_nil, List.append_nil]
    exact List.Perm.refl m
  | cons hd tl ih =>
    intro m hnd hsorted
    have hdisj := (List.nodup_append.mp hnd).2.2
    have hmem : hd.1 ∉ m.map Prod.fst := by
      intro hc
      exact hdisj hc (by simp)
    have hins : (insert hd.1 hd.2 m).Perm (hd :: m) := by
      simpa using insert_perm_of_not_mem (v := hd.2) hmem
    have hnd2 : (((insert hd.1 hd.2 m).map Prod.fst) ++ (tl.map Prod.fst)).Nodup := by
      have p1 : (((insert hd.1 hd.2 m).map Prod.fst) ++ (tl.map Prod.fst)).Perm
          (((hd :: m).map Prod.fst) ++ (tl.map Prod.fst)) :=
        List.Perm.append_right _ (hins.map Prod.fst)
      have e1 : ((hd :: m).map Prod.fst) ++ (tl.map Prod.fst)
          = hd.1 :: ((m.map Prod.fst) ++ (tl.map Prod.fst)) := by simp
      have p2 : (((insert hd.1 hd.2 m).map Prod.fst) ++ (tl.map Prod.fst)).Perm
          ((m.map Prod.fst) ++ (hd.1 :: tl.map Prod.fst)) := by
        rw [e1] at p1
        exact p1.trans List.perm_middle.symm
      exact p2.symm.nodup hnd
    have hrec := ih (insert hd.1 hd.2 m) hnd2 (sorted_insert hsorted)
    rw [List.foldl_cons]
    refine hrec.trans ?_
    have h4 : ((insert hd.1 hd.2 m) ++ tl).Perm ((hd :: m) ++ tl) :=
      List.Perm.append_right _ hins
    refine h4.trans ?_
    have h5 : ((hd :: m) ++ tl) = hd :: (m ++ tl) := by simp
    rw [h5]
    exact List.perm_middle.symm

theorem ofList_perm {l : List (K × V)} (h : (l.map Prod.fst).Nodup) :
    (ofList l).Perm l := by
  have := foldl_insert_perm l [] (by simpa using h) (by simp)
  simpa [ofList] using this

instance : IsAntisymm (K × V) (entryLt (K := K) (V := V)) :=
  ⟨fun _ _ h1 h2 => absurd h2 (lt_asymm h1)⟩

/-- The map built from an insertion sequence with pairwise distinct keys
depends only on the set of entries inserted, not on their order. -/
theorem ofList_eq_of_perm {l₁ l₂ : List (K × V)} (hp : l₁.Perm l₂)
    (hnd : (l₁.map Prod.fst).Nodup) : ofList l₁ = ofList l₂ := by
  have hnd₂ : (l₂.map Prod.fst).Nodup := (hp.map Prod.fst).nodup hnd
  have hperm : (ofList l₁).Perm (ofList l₂) :=
    ((ofList_perm hnd).trans hp).trans (ofList_perm hnd₂).symm
  exact List.eq_of_perm_of_sorted hperm (sorted_ofList l₁) (sorted_ofList l₂)

theorem lookup_eq_some {m : List (K × V)} {k : K} {v : V}
    (hnd : (m.map Prod.fst).Nodup) (h : (k, v) ∈ m) : lookup k m = some v := by
  induction m with
  | nil => simp at h
  | cons hd tl ih =>
    obtain ⟨k', v'⟩ := hd
    have hnd2 : (k' :: tl.map Prod.fst).Nodup := by
      simpa only [List.map_cons] using hnd
    have hnd' := List.nodup_cons.mp hnd2
    rcases List.mem_cons.mp h with h | h
    · rw [← h]
      simp [lookup]
    · have hk : k ≠ k' := by
        intro he
        apply hnd'.1
        rw [← he]
        exact List.mem_map.mpr ⟨(k, v), h, rfl⟩
      simp only [lookup]
      rw [if_neg hk]
      exact ih hnd'.2 h

theorem lookup_eq_none {m : List (K × V)} {k : K}
    (h : k ∉ m.map Prod.fst) : lookup k m = none := by
  induction m with
  | nil => simp [lookup]
  | cons hd tl ih =>
    obtain ⟨k', v'⟩ := hd
    have hk : k ≠ k' := by
      intro he
      exact h (by simp [he])
    simp only [lookup]
    rw [if_neg hk]
    exact ih (fun hc => h (by simp [hc]))

end BTreeModel

namespace RustcHir

/-! ### Leaf value types (`hir.rs` §2 of the spec) -/

/-- `hir.rs` line 47: the name of a generic (lifetime) parameter. -/
inductive ParamName where
  /-- Some user-given name like `T` or a lifetime name. -/
  | Plain (ident : Ident)
  /-- Synthetic name generated when the user elided a lifetime in an impl
  header, e.g. `Fresh(0)`. -/
  | Fresh (idx : Nat)
  /-- An illegal name was given and an error has been reported. -/
  | Error
deriving DecidableEq, Repr

/-- `hir.rs` line 93. -/
inductive LifetimeName where
  /-- User-given names or fresh (synthetic) names. -/
  | Param (param_name : ParamName)
  /-- User wrote nothing, e.g. the lifetime in `&u32`. -/
  | Implicit
  /-- Implicit lifetime in a context like `dyn Foo`. -/
  | ImplicitObjectLifetimeDefault
  /-- An error during lowering that was already reported. -/
  | Error
  /-- User wrote `'_`. -/
  | Underscore
  /-- User wrote `'static`. -/
  | Static
deriving DecidableEq, Repr

/-- `hir.rs` line 136: `LifetimeName::is_elided`. -/
def LifetimeName.is_elided : LifetimeName → Bool
  | LifetimeName.ImplicitObjectLifetimeDefault
  | LifetimeName.Implicit
  | LifetimeName.Underscore => true
  -- It might seem surprising that `Fresh(_)` counts as *not* elided --
  -- `Fresh(_)` variants act equivalently to some fresh name.
  | LifetimeName.Error | LifetimeName.Param _ | LifetimeName.Static => false

/-- `hir.rs` line 151: `LifetimeName::is_static`. -/
def LifetimeName.is_static : LifetimeName → Bool
  | n => n = LifetimeName.Static

/-- `hir.rs` line 32: a region annotation. -/
structure Lifetime where
  hir_id : HirId
  span : Span
  /-- Either a named lifetime definition or an elision placeholder. -/
  name : LifetimeName
deriving DecidableEq, Repr

/-- `hir.rs` line 181: `Lifetime::is_elided`. -/
def Lifetime.is_elided (l : Lifetime) : Bool :=
  l.name.is_elided

/-- `hir.rs` line 185: `Lifetime::is_static`. -/
def Lifetime.is_static (l : Lifetime) : Bool :=
  l.name.is_static

/-- `crate::def::DefKind`, consumed (not defined) by `hir.rs`: the coarse
kind of a definition.  Payload-free model; the variant set is abridged to
the ones `hir.rs` mentions plus representatives for the catch-alls. -/
inductive DefKind where
  | Mod
  | Struct
  | Union
  | Enum
  | Variant
  | Trait
  | TyAlias
  | TraitAlias
  | AssocTy
  | TyParam
  | Fn
  | Const
  | ConstParam
  | Static
  | Ctor
  | Method
  | AssocConst
deriving DecidableEq, Repr

/-- `crate::def::Res`, consumed (not defined) by `hir.rs`: the resolution
of a path.  Payloads abridged to what `hir.rs` inspects. -/
inductive Res where
  /-- Resolution to a definition of the given kind. -/
  | Def (kind : DefKind) (id : DefId)
  /-- Resolution to a primitive type. -/
  | PrimTy
  /-- Resolution to `Self`. -/
  | SelfTy (trait_def : Option DefId) (impl_def : Option DefId)
  | ToolMod
  /-- Resolution to `Self` used as a constructor. -/
  | SelfCtor (id : DefId)
  /-- Resolution to a local variable binding. -/
  | Local (id : HirId)
  | NonMacroAttr
  /-- A resolution error already reported. -/
  | Err
deriving DecidableEq, Repr

/-- `syntax::ast::Mutability`, consumed by `hir.rs`. -/
inductive Mutability where
  | Mut
  | Not
deriving DecidableEq, Repr

/-- `syntax::ast::BorrowKind`, consumed by `hir.rs`. -/
inductive BorrowKind where
  | Ref
  | Raw
deriving DecidableEq, Repr

/-- `syntax::ast::CaptureBy`, consumed by `hir.rs`. -/
inductive CaptureBy where
  | Value
  | Ref
deriving DecidableEq, Repr

/-- `syntax::ast::Movability`, consumed by `hir.rs`. -/
inductive Movability where
  | Static
  | Movable
deriving DecidableEq, Repr

/-- `rustc_span::source_map::Spanned`, consumed by `hir.rs`. -/
structure Spanned (T : Type) where
  node : T
  span : Span
deriving DecidableEq, Repr

/-- `syntax::ast::StrStyle`, consumed by `hir.rs`. -/
inductive StrStyle where
  | Cooked
  | Raw (hashes : Nat)
deriving DecidableEq, Repr

/-- `syntax::ast::LitKind`, consumed by `hir.rs`: the payload of a
literal.  Variant set abridged; only the shape matters to this model. -/
inductive LitKind where
  | Str (s : Symbol) (style : StrStyle)
  | Int (n : Nat)
  | Bool (b : Bool)
  | CharLit (c : Char)
  | Err
deriving DecidableEq, Repr

/-- `hir.rs` line 1333: `pub type Lit = Spanned<LitKind>`. -/
abbrev Lit := Spanned LitKind

/-- `hir.rs` line 953. -/
inductive BinOpKind where
  | Add | Sub | Mul | Div | Rem
  | And | Or
  | BitXor | BitAnd | BitOr
  | Shl | Shr
  | Eq | Lt | Le | Ne | Ge | Gt
deriving DecidableEq, Repr

/-- `hir.rs` line 1084: `pub type BinOp = Spanned<BinOpKind>`. -/
abbrev BinOp := Spanned BinOpKind

/-- `hir.rs` line 1086. -/
inductive UnOp where
  /-- The `*` operator (dereferencing). -/
  | UnDeref
  /-- The `!` operator (logical negation). -/
  | UnNot
  /-- The `-` operator (negation). -/
  | UnNeg
deriving DecidableEq, Repr

/-- `syntax::ast::Label`, consumed by `hir.rs`. -/
structure Label where
  ident : Ident
deriving DecidableEq, Repr

/-- `hir.rs` line 1757. -/
inductive LoopIdError where
  | OutsideLoopScope
  | UnlabeledCfInWhileCondition
  | UnresolvedLabel
deriving DecidableEq, Repr

deriving instance DecidableEq for Except
deriving instance Repr for Except

/-- `hir.rs` line 1776: the target of a `break`/`continue`. -/
structure Destination where
  label : Option Label
  target_id : Except LoopIdError HirId
deriving DecidableEq, Repr

/-- `hir.rs` line 1735. -/
inductive LoopSource where
  | Loop
  | While
  | WhileLet
  | ForLoop
deriving DecidableEq, Repr

/-- `hir.rs` line 1699. -/
inductive MatchSource where
  | Normal
  | IfDesugar (contains_else_clause : Bool)
  | IfLetDesugar (contains_else_clause : Bool)
  | WhileDesugar
  | WhileLetDesugar
  | ForLoopDesugar
  | TryDesugar
  | AwaitDesugar
deriving DecidableEq, Repr

/-- `hir.rs` line 1676. -/
inductive LocalSource where
  | Normal
  | ForLoopDesugar
  | AsyncFn
  | AwaitDesugar
deriving DecidableEq, Repr

/-- `hir.rs`: the source of an `ExprKind::Yield`. -/
inductive YieldSource where
  | Await
  | Yield
deriving DecidableEq, Repr

/-- `hir.rs` line 882. -/
inductive RangeEnd where
  | Included
  | Excluded
deriving DecidableEq, Repr

/-- `hir.rs` line 861: `BindingAnnotation` (name shortened for this
model), the explicit binding annotation of a pattern binding. -/
inductive BindingAnnot where
  | Unannotated
  | Mutable
  | Ref
  | RefMut
deriving DecidableEq, Repr

/-- `hir.rs` line 1215. -/
inductive UnsafeSource where
  | CompilerGenerated
  | UserProvided
deriving DecidableEq, Repr

/-- `hir.rs` line 1207. -/
inductive BlockCheckMode where
  | DefaultBlock
  | UnsafeBlock (src : UnsafeSource)
  | PushUnsafeBlock (src : UnsafeSource)
  | PopUnsafeBlock (src : UnsafeSource)
deriving DecidableEq, Repr

/-- `hir.rs` line 1342: a constant expression needing its own `DefId`,
whose body is stored out of line. -/
structure AnonConst where
  hir_id : HirId
  body : BodyId
deriving DecidableEq, Repr

/-- `hir.rs` line 1288. -/
inductive AsyncGeneratorKind where
  | Block
  | Closure
  | Fn
deriving DecidableEq, Repr

/-- `hir.rs` line 1265: the source construct that created a generator. -/
inductive GeneratorKind where
  | Async (kind : AsyncGeneratorKind)
  | Gen
deriving DecidableEq, Repr

/-- `syntax::ast::Attribute`, consumed by `hir.rs`: opaque to this model. -/
structure Attribute where
  id : Nat
deriving DecidableEq, Repr

/-- `syntax::ast::AttrVec`. -/
abbrev AttrVec := List Attribute

/-- `syntax::ast::CrateSugar`, consumed by `hir.rs`. -/
inductive CrateSugar where
  | PubCrate
  | JustCrate
deriving DecidableEq, Repr

/-- `syntax::ast::IsAuto`, consumed by `hir.rs`. -/
inductive IsAuto where
  | Yes
  | No
deriving DecidableEq, Repr

/-- `syntax::ast::ImplPolarity`, consumed by `hir.rs`. -/
inductive ImplPolarity where
  | Positive
  | Negative
deriving DecidableEq, Repr

/-- `hir.rs` line 2142. -/
inductive Defaultness where
  | Default (has_value : Bool)
  | Final
deriving DecidableEq, Repr

/-- `hir.rs` line 2431. -/
inductive Constness where
  | Const
  | NotConst
deriving DecidableEq, Repr

/-- `hir.rs` line 2406. -/
inductive Unsafety where
  | Unsafe
  | Normal
deriving DecidableEq, Repr

/-- `hir.rs` line 2136. -/
inductive IsAsync where
  | Async
  | NotAsync
deriving DecidableEq, Repr

/-- `rustc_target::spec::abi::Abi`, consumed by `hir.rs`: modelled by its
name. -/
abbrev Abi := String

/-- `hir.rs` line 2437: the header of a function declaration. -/
structure FnHeader where
  unsafety : Unsafety
  constness : Constness
  asyncness : IsAsync
  abi : Abi
deriving DecidableEq, Repr

/-- `hir.rs` line 2110. -/
inductive ImplicitSelfKind where
  | Imm
  | Mut
  | ImmRef
  | MutRef
  | None
deriving DecidableEq, Repr

/-- `hir.rs` line 2240: the sub-kind of a `use` import. -/
inductive UseKind where
  /-- One import, e.g. `use foo::bar` or `use foo::bar as baz`. -/
  | Single
  /-- Glob import, e.g. `use foo::*`. -/
  | Glob
  /-- Degenerate list import, e.g. `use foo::{}` or `use foo::{a}`. -/
  | ListStem
deriving DecidableEq, Repr

/-- `hir.rs`: coarse kind of an associated item reference. -/
inductive AssocItemKind where
  | Const
  | Method (has_self : Bool)
  | «Type»
  | OpaqueTy
deriving DecidableEq, Repr

/-- `hir.rs` line 374. -/
inductive TraitBoundModifier where
  | None
  | Maybe
  | MaybeConst
deriving DecidableEq, Repr

/-- `hir.rs` line 405. -/
inductive LifetimeParamKind where
  | Explicit
  | InBand
  | Elided
  | Error
deriving DecidableEq, Repr

/-- `hir.rs` line 526. -/
inductive SyntheticTyParamKind where
  | ImplTrait
deriving DecidableEq, Repr

/-- `hir.rs` line 2006: from whence an opaque type came. -/
inductive OpaqueTyOrigin where
  | TypeAlias
  | FnReturn
  | AsyncFn
  | Misc
deriving DecidableEq, Repr

/-- `syntax::ast::AsmDialect`, consumed by `hir.rs`. -/
inductive AsmDialect where
  | Att
  | Intel
deriving DecidableEq, Repr

/-- `hir.rs` line 2058. -/
structure InlineAsmOutput where
  constraint : Symbol
  is_rw : Bool
  is_indirect : Bool
  span : Span
deriving DecidableEq, Repr

/-- `hir.rs` line 2068. -/
structure InlineAsmInner where
  asm : Symbol
  asm_str_style : StrStyle
  outputs : List InlineAsmOutput
  inputs : List Symbol
  clobbers : List Symbol
  volatile : Bool
  alignstack : Bool
  dialect : AsmDialect
deriving DecidableEq, Repr

/-- `hir.rs` line 266: a const argument in a generic-argument list. -/
structure ConstArg where
  value : AnonConst
  span : Span
deriving DecidableEq, Repr

/-!
### Structural node types (`hir.rs` §3 of the spec)

Patterns, expressions, types, statements and blocks, each a header
(identifier, span, attributes) plus a tagged `kind`.  They are mutually
recursive in the source (`&'hir` arena references), so they form one
mutual inductive family here; the struct-like ones get a single `mk`
constructor and accessor functions below.
-/

set_option maxHeartbeats 3200000 in
set_option maxRecDepth 4096 in
mutual

/-- `hir.rs` line 1349: an expression. -/
inductive Expr where
  | mk (hir_id : HirId) (kind : ExprKind) (attrs : AttrVec) (span : Span)

/-- `hir.rs` line 1543. -/
inductive ExprKind where
  /-- A `box x` expression. -/
  | Box (e : Expr)
  /-- An array, e.g. `[a, b, c, d]`. -/
  | Array (es : List Expr)
  /-- A function call: the callee and the list of arguments. -/
  | Call (f : Expr) (args : List Expr)
  /-- A method call; the first argument of the list is the receiver. -/
  | MethodCall (seg : PathSegment) (sp : Span) (args : List Expr)
  /-- A tuple, e.g. `(a, b, c, d)`. -/
  | Tup (es : List Expr)
  /-- A binary operation, e.g. `a + b`. -/
  | Binary (op : BinOp) (lhs : Expr) (rhs : Expr)
  /-- A unary operation, e.g. `!x`, `*x`. -/
  | Unary (op : UnOp) (e : Expr)
  /-- A literal. -/
  | Lit (lit : Lit)
  /-- A cast, e.g. `foo as f64`. -/
  | Cast (e : Expr) (ty : Ty)
  /-- A type ascription. -/
  | «Type» (e : Expr) (ty : Ty)
  /-- Wraps the expression in a terminating scope; exists only to tweak
  the drop order in HIR lowering (e.g. `for`-loop desugaring). -/
  | DropTemps (e : Expr)
  /-- A conditionless loop. -/
  | Loop (body : Block) (label : Option Label) (src : LoopSource)
  /-- A `match` block. -/
  | Match (scrutinee : Expr) (arms : List Arm) (src : MatchSource)
  /-- A closure. -/
  | Closure (capture : CaptureBy) (decl : FnDecl) (body : BodyId) (sp : Span)
      (movability : Option Movability)
  /-- A block, e.g. `'label: { ... }`. -/
  | Block (b : Block) (label : Option Label)
  /-- An assignment, e.g. `a = foo()`. -/
  | Assign (lhs : Expr) (rhs : Expr) (sp : Span)
  /-- An assignment with an operator, e.g. `a += 1`. -/
  | AssignOp (op : BinOp) (lhs : Expr) (rhs : Expr)
  /-- Access of a named or unnamed struct or tuple field. -/
  | Field (base : Expr) (ident : Ident)
  /-- An indexing operation, `foo[2]`. -/
  | Index (base : Expr) (idx : Expr)
  /-- Path to a definition. -/
  | Path (qpath : QPath)
  /-- A referencing operation, `&a` or `&mut a`. -/
  | AddrOf (bk : BorrowKind) (mutbl : Mutability) (e : Expr)
  /-- A `break`, with an optional label and value. -/
  | Break (dest : Destination) (e : Option Expr)
  /-- A `continue`, with an optional label. -/
  | Continue (dest : Destination)
  /-- A `return`, with an optional value. -/
  | Ret (e : Option Expr)
  /-- Inline assembly, with its outputs and inputs. -/
  | InlineAsm (asm : InlineAsm)
  /-- A struct or struct-like variant literal expression, with optional
  functional-update base. -/
  | Struct (qpath : QPath) (fields : List Field) (base : Option Expr)
  /-- An array literal constructed from one repeated element. -/
  | Repeat (e : Expr) (count : AnonConst)
  /-- A suspension point for generators, `yield <expr>`. -/
  | Yield (e : Expr) (src : YieldSource)
  /-- Placeholder for a syntactically malformed expression. -/
  | Err

/-- `hir.rs` line 740: a block. -/
inductive Block where
  | mk (stmts : List Stmt) (expr : Option Expr) (hir_id : HirId)
      (rules : BlockCheckMode) (span : Span) (targeted_by_break : Bool)

/-- `hir.rs` line 1116: a statement. -/
inductive Stmt where
  | mk (hir_id : HirId) (kind : StmtKind) (span : Span)

/-- `hir.rs` line 1135. -/
inductive StmtKind where
  /-- A local (`let`) binding. -/
  | Local (l : Local)
  /-- An item binding. -/
  | Item (id : ItemId)
  /-- An expression without a trailing semi-colon. -/
  | Expr (e : Expr)
  /-- An expression with a trailing semi-colon. -/
  | Semi (e : Expr)

/-- `hir.rs` line 1161: a `let` statement. -/
inductive Local where
  | mk (pat : Pat) (ty : Option Ty) (init : Option Expr) (hir_id : HirId)
      (span : Span) (attrs : AttrVec) (source : LocalSource)

/-- `hir.rs` line 1178: a single arm of a `match` expression. -/
inductive Arm where
  | mk (hir_id : HirId) (span : Span) (attrs : List Attribute) (pat : Pat)
      (guard : Option Guard) (body : Expr)

/-- `hir.rs` line 1192. -/
inductive Guard where
  | If (e : Expr)

/-- `hir.rs` line 1197: a field of a struct-literal expression. -/
inductive Field where
  | mk (hir_id : HirId) (ident : Ident) (expr : Expr) (span : Span)
      (is_shorthand : Bool)

/-- `hir.rs` line 756: a pattern. -/
inductive Pat where
  | mk (hir_id : HirId) (kind : PatKind) (span : Span)

/-- `hir.rs` line 897. -/
inductive PatKind where
  /-- The wildcard pattern `_`. -/
  | Wild
  /-- A fresh binding `ref mut binding @ OPT_SUBPATTERN`. -/
  | Binding (annot : BindingAnnot) (id : HirId) (ident : Ident) (sub : Option Pat)
  /-- A struct or struct-variant pattern; the `Bool` records `..`. -/
  | Struct (qpath : QPath) (fields : List FieldPat) (dotdot : Bool)
  /-- A tuple struct/variant pattern; the `Option Nat` is the position of
  a `..` fragment if present. -/
  | TupleStruct (qpath : QPath) (pats : List Pat) (dotdot : Option Nat)
  /-- An or-pattern `A | B | C`; invariant `pats.len() >= 2`. -/
  | Or (pats : List Pat)
  /-- A path pattern. -/
  | Path (qpath : QPath)
  /-- A tuple pattern, e.g. `(a, b)`. -/
  | Tuple (pats : List Pat) (dotdot : Option Nat)
  /-- A `box` pattern. -/
  | Box (sub : Pat)
  /-- A reference pattern, e.g. `&mut (a, b)`. -/
  | Ref (sub : Pat) (mutbl : Mutability)
  /-- A literal. -/
  | Lit (e : Expr)
  /-- A range pattern, e.g. `1..=2`. -/
  | Range (lo : Option Expr) (hi : Option Expr) (re : RangeEnd)
  /-- A slice pattern `[before.., (slice, after..)?]`. -/
  | Slice (before : List Pat) (slice : Option Pat) (after : List Pat)

/-- `hir.rs` line 845: a single field in a struct pattern. -/
inductive FieldPat where
  | mk (hir_id : HirId) (ident : Ident) (pat : Pat) (is_shorthand : Bool)
      (span : Span)

/-- `hir.rs` line 1656: an optionally `Self`-qualified path. -/
inductive QPath where
  /-- Path to a definition, optionally fully-qualified with a `Self` type. -/
  | Resolved (self_ty : Option Ty) (path : Path)
  /-- Type-related paths, e.g. `<T>::default`; resolved by type-checking. -/
  | TypeRelative (ty : Ty) (seg : PathSegment)

/-- `hir.rs` line 194: a (resolved) path. -/
inductive Path where
  | mk (span : Span) (res : Res) (segments : List PathSegment)

/-- `hir.rs` line 223: a segment of a path. -/
inductive PathSegment where
  | mk (ident : Ident) (hir_id : Option HirId) (res : Option Res)
      (args : Option GenericArgs) (infer_args : Bool)

/-- `hir.rs` line 310: generic arguments of a path segment. -/
inductive GenericArgs where
  | mk (args : List GenericArg) (bindings : List TypeBinding)
      (parenthesized : Bool)

/-- `hir.rs` line 271. -/
inductive GenericArg where
  | Lifetime (l : Lifetime)
  | «Type» (ty : Ty)
  | Const (c : ConstArg)

/-- `hir.rs` line 1934 region: bind a type to an associated type. -/
inductive TypeBinding where
  | mk (hir_id : HirId) (ident : Ident) (ty : Ty) (span : Span)

/-- `hir.rs`: a type node. -/
inductive Ty where
  | mk (hir_id : HirId) (kind : TyKind) (span : Span)

/-- `hir.rs` line 2019. -/
inductive TyKind where
  /-- A variable length slice, `[T]`. -/
  | Slice (ty : Ty)
  /-- A fixed length array, `[T; n]`. -/
  | Array (ty : Ty) (len : AnonConst)
  /-- A raw pointer, `*const T` or `*mut T`. -/
  | Ptr (mt : MutTy)
  /-- A reference, `&'a T` or `&'a mut T`. -/
  | Rptr (lifetime : Lifetime) (mt : MutTy)
  /-- A bare function, e.g. `fn(usize) -> bool`. -/
  | BareFn (f : BareFnTy)
  /-- The never type, `!`. -/
  | Never
  /-- A tuple, `(A, B, C, D, ...)`. -/
  | Tup (tys : List Ty)
  /-- A path to a type definition or an associated type. -/
  | Path (qpath : QPath)
  /-- A type definition itself (return-position `impl Trait` desugaring). -/
  | Def (item : ItemId) (args : List GenericArg)
  /-- A trait object type. -/
  | TraitObject (bounds : List PolyTraitRef) (lifetime : Lifetime)
  /-- Unused for now. -/
  | Typeof (c : AnonConst)
  /-- The type should be inferred. -/
  | Infer
  /-- Placeholder for a type that has failed to be defined. -/
  | Err

/-- `hir.rs` line 738 region: a type with mutability. -/
inductive MutTy where
  | mk (ty : Ty) (mutbl : Mutability)

/-- `hir.rs` line 1988 region: a bare function type. -/
inductive BareFnTy where
  | mk (unsafety : Unsafety) (abi : Abi) (generic_params : List GenericParam)
      (decl : FnDecl) (param_names : List Ident)

/-- `hir.rs` line 2080: inline assembly with its outputs and inputs. -/
inductive InlineAsm where
  | mk (inner : InlineAsmInner) (outputs_exprs : List Expr)
      (inputs_exprs : List Expr)

/-- `hir.rs` line 472: the generic parameters and constraints of a
declaration. -/
inductive Generics where
  | mk (params : List GenericParam) (where_clause : WhereClause) (span : Span)

/-- `hir.rs` line 443. -/
inductive GenericParam where
  | mk (hir_id : HirId) (name : ParamName) (attrs : List Attribute)
      (bounds : List GenericBound) (span : Span) (pure_wrt_drop : Bool)
      (kind : GenericParamKind)

/-- `hir.rs` line 428. -/
inductive GenericParamKind where
  | Lifetime (kind : LifetimeParamKind)
  | «Type» (default : Option Ty) (synthetic : Option SyntheticTyParamKind)
  | Const (ty : Ty)

/-- `hir.rs` line 531: a where-clause. -/
inductive WhereClause where
  | mk (predicates : List WherePredicate) (span : Span)

/-- `hir.rs` line 551. -/
inductive WherePredicate where
  | BoundPredicate (p : WhereBoundPredicate)
  | RegionPredicate (p : WhereRegionPredicate)
  | EqPredicate (p : WhereEqPredicate)

/-- `hir.rs` line 573. -/
inductive WhereBoundPredicate where
  | mk (span : Span) (bound_generic_params : List GenericParam)
      (bounded_ty : Ty) (bounds : List GenericBound)

/-- `hir.rs` line 584. -/
inductive WhereRegionPredicate where
  | mk (span : Span) (lifetime : Lifetime) (bounds : List GenericBound)

/-- `hir.rs` line 591. -/
inductive WhereEqPredicate where
  | mk (hir_id : HirId) (span : Span) (lhs_ty : Ty) (rhs_ty : Ty)

/-- `hir.rs` line 381. -/
inductive GenericBound where
  | Trait (ptr : PolyTraitRef) (modifier : TraitBoundModifier)
  | Outlives (l : Lifetime)

/-- `hir.rs` line 2285 region: a poly trait reference. -/
inductive PolyTraitRef where
  | mk (bound_generic_params : List GenericParam) (trait_ref : TraitRef)
      (span : Span)

/-- `hir.rs` line 2262 region: a trait reference. -/
inductive TraitRef where
  | mk (path : Path) (hir_ref_id : HirId)

/-- `hir.rs` line 2097: the header (not the body) of a function
declaration. -/
inductive FnDecl where
  | mk (inputs : List Ty) (output : FnRetTy) (c_variadic : Bool)
      (implicit_self : ImplicitSelfKind)

/-- `hir.rs` line 2168. -/
inductive FnRetTy where
  /-- Return type not specified; defaults to `()` or to inference. -/
  | DefaultReturn (sp : Span)
  /-- Everything else. -/
  | Return (ty : Ty)

end

/-- `hir.rs` line 383: `pub type GenericBounds = &[GenericBound]`. -/
abbrev GenericBounds := List GenericBound

/-! Accessors for the struct-like members of the mutual family. -/

/-- Header field `Expr.hir_id`. -/
def Expr.hir_id : Expr → HirId
  | .mk h _ _ _ => h

/-- Header field `Expr.kind`. -/
def Expr.kind : Expr → ExprKind
  | .mk _ k _ _ => k

/-- Header field `Expr.attrs`. -/
def Expr.attrs : Expr → AttrVec
  | .mk _ _ a _ => a

/-- Header field `Expr.span`. -/
def Expr.span : Expr → Span
  | .mk _ _ _ s => s

/-- Header field `Pat.hir_id`. -/
def Pat.hir_id : Pat → HirId
  | .mk h _ _ => h

/-- Header field `Pat.kind`. -/
def Pat.kind : Pat → PatKind
  | .mk _ k _ => k

/-- Header field `Pat.span`. -/
def Pat.span : Pat → Span
  | .mk _ _ s => s

/-- Field `FieldPat.pat`. -/
def FieldPat.pat : FieldPat → Pat
  | .mk _ _ p _ _ => p

/-- Header field `Ty.hir_id`. -/
def Ty.hir_id : Ty → HirId
  | .mk h _ _ => h

/-- Header field `Ty.kind`. -/
def Ty.kind : Ty → TyKind
  | .mk _ k _ => k

/-- Header field `Ty.span`. -/
def Ty.span : Ty → Span
  | .mk _ _ s => s

/-- Field `Path.span`. -/
def Path.span : Path → Span
  | .mk s _ _ => s

/-- Field `Path.res`. -/
def Path.res : Path → Res
  | .mk _ r _ => r

/-- Field `Path.segments`. -/
def Path.segments : Path → List PathSegment
  | .mk _ _ segs => segs

/-- Field `PathSegment.ident`. -/
def PathSegment.ident : PathSegment → Ident
  | .mk i _ _ _ _ => i

/-- Field `Generics.params`. -/
def Generics.params : Generics → List GenericParam
  | .mk ps _ _ => ps

/-!
### Derived operations on expressions and patterns
(`hir.rs` §4.2 of the spec: pure, no side effects)
-/

/-- `hir.rs` line 1406: `Expr::is_place_expr` — whether this is a place
expression.  `allow_projections_from` should return `true` if indexing a
field or index expression based on the given expression should be
considered a place expression. -/
def Expr.is_place_expr : Expr → (Expr → Bool) → Bool
  | Expr.mk _ kind _ _, allow_projections_from =>
    match kind with
    | ExprKind.Path (QPath.Resolved _ path) =>
      match path.res with
      | Res.Local _ => true
      | Res.Def DefKind.Static _ => true
      | Res.Err => true
      | _ => false
    -- Type ascription inherits its place expression kind from its
    -- operand (RFC 0803).
    | ExprKind.«Type» e _ => e.is_place_expr allow_projections_from
    | ExprKind.Unary UnOp.UnDeref _ => true
    | ExprKind.Field base _ | ExprKind.Index base _ =>
      allow_projections_from base || base.is_place_expr allow_projections_from
    -- Partially qualified paths in expressions can only legally refer
    -- to associated items, which are always rvalues.
    | ExprKind.Path (QPath.TypeRelative _ _)
    | ExprKind.Call _ _
    | ExprKind.MethodCall _ _ _
    | ExprKind.Struct _ _ _
    | ExprKind.Tup _
    | ExprKind.Match _ _ _
    | ExprKind.Closure _ _ _ _ _
    | ExprKind.Block _ _
    | ExprKind.Repeat _ _
    | ExprKind.Array _
    | ExprKind.Break _ _
    | ExprKind.Continue _
    | ExprKind.Ret _
    | ExprKind.Loop _ _ _
    | ExprKind.Assign _ _ _
    | ExprKind.InlineAsm _
    | ExprKind.AssignOp _ _ _
    | ExprKind.Lit _
    | ExprKind.Unary _ _
    | ExprKind.Box _
    | ExprKind.AddrOf _ _ _
    | ExprKind.Binary _ _ _
    | ExprKind.Yield _ _
    | ExprKind.Cast _ _
    | ExprKind.DropTemps _
    | ExprKind.Err => false

/-- `hir.rs` line 1460: `Expr::peel_drop_temps` — if the kind is
`DropTemps(expr)`, drill down until a non-`DropTemps` expression is
reached. -/
def Expr.peel_drop_temps : Expr → Expr
  | Expr.mk _ (ExprKind.DropTemps inner) _ _ => inner.peel_drop_temps
  | e => e

/-- Whether an expression's kind is the `DropTemps` wrapper (the loop
guard of `peel_drop_temps`). -/
def Expr.isDropTemps (e : Expr) : Bool :=
  match e.kind with
  | ExprKind.DropTemps _ => true
  | _ => false

/-- Wrap an expression in one `DropTemps` scope-marker node carrying the
given header data. -/
def Expr.wrapDropTemps (h : HirId) (a : AttrVec) (s : Span) (e : Expr) : Expr :=
  Expr.mk h (ExprKind.DropTemps e) a s

/-- `rustc_span::source_map::SourceMap`, consumed by `hir.rs`: only the
two operations `is_range_literal` uses are modelled — `end_point` (the
span of the last character of a span) and `span_to_snippet` (the source
text of a span; its `Result` is modelled as `Option`, a snippet-lookup
failure as `none`). -/
structure SourceMap where
  end_point : Span → Span
  span_to_snippet : Span → Option String

/-- Rust `str::starts_with` (a prefix test), modelled on the character
list so that it evaluates in the kernel. -/
def str_starts_with (s pre : String) : Bool :=
  List.isPrefixOf pre.data s.data

/-- Rust `str::ends_with` (a suffix test), modelled on the character
list so that it evaluates in the kernel. -/
def str_ends_with (s suf : String) : Bool :=
  List.isSuffixOf suf.data s.data

/-- `hir.rs` line 1489: `is_range_path` — whether the path has a
`::std::ops::Range*` or `::core::ops::Range*` prefix; `"{{root}}"`
(spelled with escaped braces here) is the equivalent of the `::`
prefix. -/
def is_range_path (path : Path) : Bool :=
  let segs := path.segments.map fun seg => seg.ident
  match segs with
  | ["\x7b\x7broot\x7d\x7d", std_core, "ops", range] =>
    (std_core = "std" || std_core = "core") && str_starts_with range ("Range")
  | _ => false

/-- `hir.rs` line 1503: `is_lit` — whether a span corresponding to a
range expression is a range literal rather than an explicit struct or
`new()` call: the snippet of the span's end point must exist and must
end with neither `\x7d` nor `)`. -/
def range_is_lit (sm : SourceMap) (span : Span) : Bool :=
  match sm.span_to_snippet (sm.end_point span) with
  | some end_string =>
    !(str_ends_with end_string ("\x7d") || str_ends_with end_string (")"))
  | none => false

/-- `hir.rs` line 1485: `is_range_literal` — checks if the expression is
a built-in range literal (best-effort, via the resolved path's segment
names and a lexical check on the source span's trailing character). -/
def is_range_literal (sm : SourceMap) (expr : Expr) : Bool :=
  match expr.kind with
  -- All built-in range literals but `..=` and `..` desugar to `Struct`s.
  | ExprKind.Struct qpath _ _ =>
    match qpath with
    | QPath.Resolved none path => is_range_path path && range_is_lit sm expr.span
    | _ => false
  -- `..` desugars to its struct path.
  | ExprKind.Path (QPath.Resolved none path) =>
    is_range_path path && range_is_lit sm expr.span
  -- `..=` desugars into `::std::ops::RangeInclusive::new(...)`.
  | ExprKind.Call func _ =>
    match func.kind with
    | ExprKind.Path (QPath.TypeRelative ty segment) =>
      match ty.kind with
      | TyKind.Path (QPath.Resolved none path) =>
        let new_call := segment.ident = "new"
        is_range_path path && range_is_lit sm expr.span && new_call
      | _ => false
    | _ => false
  | _ => false

/-- The direct sub-patterns a pattern walk recurses into, in the
left-to-right order of the corresponding arms of `Pat::walk_`
(`hir.rs` line 804) and `Pat::walk_short_` (line 776): nothing for
`Wild`/`Lit`/`Range`/`Binding(.., None)`/`Path`; the single sub-pattern
for `Box`/`Ref`/`Binding(.., Some)`; the fields' patterns for `Struct`;
the element list for `TupleStruct`/`Tuple`/`Or`; and
`before`, then `slice`, then `after` for `Slice`. -/
def Pat.walkSubpats (p : Pat) : List Pat :=
  match p.kind with
  | PatKind.Wild | PatKind.Lit _ | PatKind.Range _ _ _
  | PatKind.Binding _ _ _ none | PatKind.Path _ => []
  | PatKind.Box s | PatKind.Ref s _ | PatKind.Binding _ _ _ (some s) => [s]
  | PatKind.Struct _ fields _ => fields.map FieldPat.pat
  | PatKind.TupleStruct _ s _ | PatKind.Tuple s _ | PatKind.Or s => s
  | PatKind.Slice before slice after => before ++ slice.toList ++ after

theorem Pat.sizeOf_lt_of_mem_walkSubpats (p : Pat) :
    ∀ c ∈ p.walkSubpats, sizeOf c < sizeOf p := by
  obtain ⟨h, k, s⟩ := p
  intro c hc
  cases k <;> simp only [Pat.walkSubpats, Pat.kind] at hc
  case Wild | Lit | Range | Path => simp at hc
  case Binding annot id ident sub =>
    cases sub with
    | none => simp at hc
    | some s0 =>
      simp only [List.mem_singleton] at hc
      subst hc
      simp
      omega
  case Struct qpath fields dotdot =>
    rcases List.mem_map.mp hc with ⟨f, hf, hfp⟩
    have h1 : sizeOf f < sizeOf fields := List.sizeOf_lt_of_mem hf
    have h2 : sizeOf (FieldPat.pat f) < sizeOf f := by
      obtain ⟨fh, fi, fp, fs, fsp⟩ := f
      simp [FieldPat.pat]
      omega
    rw [← hfp]
    simp
    omega
  case TupleStruct qpath pats dotdot =>
    have h1 : sizeOf c < sizeOf pats := List.sizeOf_lt_of_mem hc
    simp
    omega
  case Tuple pats dotdot =>
    have h1 : sizeOf c < sizeOf pats := List.sizeOf_lt_of_mem hc
    simp
    omega
  case Or pats =>
    have h1 : sizeOf c < sizeOf pats := List.sizeOf_lt_of_mem hc
    simp
    omega
  case Box s0 =>
    simp only [List.mem_singleton] at hc
    subst hc
    simp
    omega
  case Ref s0 mutbl =>
    simp only [List.mem_singleton] at hc
    subst hc
    simp
    omega
  case Slice before slice after =>
    rcases List.mem_append.mp hc with hc | hc
    · rcases List.mem_append.mp hc with hc | hc
      · have h1 : sizeOf c < sizeOf before := List.sizeOf_lt_of_mem hc
        simp
        omega
      · cases slice with
        | none => simp at hc
        | some s0 =>
          simp only [Option.toList_some, List.mem_singleton] at hc
          subst hc
          simp
          omega
    · have h1 : sizeOf c < sizeOf after := List.sizeOf_lt_of_mem hc
      simp
      omega

/-- `hir.rs` line 804: `Pat::walk_` (wrapped by `Pat::walk`, line 824) —
the callback is invoked on the pattern itself; if it returns `false` the
walk returns without visiting the sub-patterns, otherwise every direct
sub-pattern is walked, in left-to-right order, via `for_each`/`walk_`.
Embedded as the list of patterns on which the callback is invoked, in
invocation order. -/
def Pat.walkTrace (it : Pat → Bool) (p : Pat) : List Pat :=
  if it p then
    p :: (p.walkSubpats.attach.map fun c => Pat.walkTrace it c.1).flatten
  else [p]
termination_by sizeOf p
decreasing_by
  exact Pat.sizeOf_lt_of_mem_walkSubpats _ _ c.2

/-- `hir.rs` line 776: `Pat::walk_short_` (wrapped by `Pat::walk_short`,
line 799) — the `.all(..)`-based traversal: returns whether the callback
answered `true` on every visited node; a `false` short-circuits the
entire remaining walk. -/
def Pat.walk_short (it : Pat → Bool) (p : Pat) : Bool :=
  it p && (p.walkSubpats.attach.all fun c => Pat.walk_short it c.1)
termination_by sizeOf p
decreasing_by
  exact Pat.sizeOf_lt_of_mem_walkSubpats _ _ c.2

/-- The nodes a pruned walk reaches: the root itself is always reached,
and a node of a child subtree is reached exactly when the callback
accepted the parent (whatever it answers elsewhere). -/
inductive Pat.VisitedBy (it : Pat → Bool) : Pat → Pat → Prop where
  | refl (p : Pat) : Pat.VisitedBy it p p
  | step (p c q : Pat) : it p = true → c ∈ p.walkSubpats →
      Pat.VisitedBy it c q → Pat.VisitedBy it p q

/-- `hir.rs` line 2088: a parameter in a function header. -/
structure Param where
  attrs : List Attribute
  hir_id : HirId
  pat : Pat
  span : Span

/-- `hir.rs` line 1247: the body of a function, closure or constant,
decoupled from its declaring item and stored out of line. -/
structure Body where
  params : List Param
  value : Expr
  generator_kind : Option GeneratorKind

/-- `hir.rs` line 1254: `Body::id` — a body's identifier is the
identifier of its root value expression. -/
def Body.id (b : Body) : BodyId :=
  { hir_id := b.value.hir_id }

/-- `hir.rs` line 1258: `Body::generator_kind`. -/
def Body.generator_kind_acc (b : Body) : Option GeneratorKind :=
  b.generator_kind

/-! ### Item-level types (`hir.rs` §4 of the spec) -/

/-- `hir.rs` line 2298 region. -/
inductive VisibilityKind where
  | Public
  | Crate (sugar : CrateSugar)
  | Restricted (path : Path) (hir_id : HirId)
  | Inherited

/-- `hir.rs`: `pub type Visibility = Spanned<VisibilityKind>`. -/
abbrev Visibility := Spanned VisibilityKind

/-- `hir.rs` line 2330 region: a field of a struct/variant definition. -/
structure StructField where
  span : Span
  ident : Ident
  vis : Visibility
  hir_id : HirId
  ty : Ty
  attrs : List Attribute

/-- `hir.rs` line 2350 region: the data payload of a struct or variant. -/
inductive VariantData where
  /-- A struct variant; the `Bool` records parse recovery. -/
  | Struct (fields : List StructField) (recovered : Bool)
  /-- A tuple variant. -/
  | Tuple (fields : List StructField) (hir_id : HirId)
  /-- A unit variant. -/
  | Unit (hir_id : HirId)

/-- `hir.rs` line 2223 region: a variant of an enum definition. -/
structure Variant where
  ident : Ident
  attrs : List Attribute
  id : HirId
  data : VariantData
  disr_expr : Option AnonConst
  span : Span

/-- `hir.rs` line 2218 region. -/
structure EnumDef where
  variants : List Variant

/-- `hir.rs`: a function signature, header plus declaration. -/
structure FnSig where
  header : FnHeader
  decl : FnDecl

/-- `hir.rs` line 1853: a trait method's body (or just argument names). -/
inductive TraitMethod where
  /-- No default body in the trait, just a signature. -/
  | Required (arg_names : List Ident)
  /-- Both signature and body are provided in the trait. -/
  | Provided (body : BodyId)

/-- `hir.rs` line 1863. -/
inductive TraitItemKind where
  /-- An associated constant with an optional value. -/
  | Const (ty : Ty) (body : Option BodyId)
  /-- A method with an optional body. -/
  | Method (sig : FnSig) (m : TraitMethod)
  /-- An associated type with (possibly empty) bounds and optional
  concrete type. -/
  | «Type» (bounds : GenericBounds) (ty : Option Ty)

/-- `hir.rs` line 1842: an item declaration within a trait declaration. -/
structure TraitItem where
  ident : Ident
  hir_id : HirId
  attrs : List Attribute
  generics : Generics
  kind : TraitItemKind
  span : Span

/-- `hir.rs` line 1896. -/
inductive ImplItemKind where
  /-- An associated constant of the given type. -/
  | Const (ty : Ty) (body : BodyId)
  /-- A method implementation with the given signature and body. -/
  | Method (sig : FnSig) (body : BodyId)
  /-- An associated type. -/
  | TyAlias (ty : Ty)
  /-- An associated `type = impl Trait`. -/
  | OpaqueTy (bounds : GenericBounds)

/-- `hir.rs` line 1883: anything within an `impl` block. -/
structure ImplItem where
  ident : Ident
  hir_id : HirId
  vis : Visibility
  defaultness : Defaultness
  attrs : List Attribute
  generics : Generics
  kind : ImplItemKind
  span : Span

/-- `hir.rs` line 2198: a module. -/
structure Mod where
  inner : Span
  item_ids : List ItemId

/-- `hir.rs` line 2610 region: an item within an `extern` block. -/
inductive ForeignItemKind where
  /-- A foreign function. -/
  | Fn (decl : FnDecl) (param_names : List Ident) (generics : Generics)
  /-- A foreign static item. -/
  | Static (ty : Ty) (mutbl : Mutability)
  /-- A foreign type. -/
  | «Type»

/-- `hir.rs` line 2588 region. -/
structure ForeignItem where
  ident : Ident
  attrs : List Attribute
  kind : ForeignItemKind
  hir_id : HirId
  span : Span
  vis : Visibility

/-- `hir.rs` line 2207: an external module. -/
structure ForeignMod where
  abi : Abi
  items : List ForeignItem

/-- `hir.rs` line 2213: module-level inline assembly. -/
structure GlobalAsm where
  asm : Symbol

/-- `hir.rs` line 1997: an opaque `impl Trait` type alias. -/
structure OpaqueTy where
  generics : Generics
  bounds : GenericBounds
  impl_trait_fn : Option DefId
  origin : OpaqueTyOrigin

/-- `hir.rs` line 2554: a lightweight reference from a trait to one of
its associated items. -/
structure TraitItemRef where
  id : TraitItemId
  ident : Ident
  kind : AssocItemKind
  span : Span
  defaultness : Defaultness

/-- `hir.rs` line 2570: a lightweight reference from an impl to one of
its associated items. -/
structure ImplItemRef where
  id : ImplItemId
  ident : Ident
  kind : AssocItemKind
  span : Span
  vis : Visibility
  defaultness : Defaultness

/-- `hir.rs` line 2454: the tagged variants of an item. -/
inductive ItemKind where
  /-- An `extern crate` item, with optional original crate name. -/
  | ExternCrate (orig : Option Name)
  /-- `use foo::bar::*;` or `use foo::bar::baz as quux;`. -/
  | Use (path : Path) (kind : UseKind)
  /-- A `static` item. -/
  | Static (ty : Ty) (mutbl : Mutability) (body : BodyId)
  /-- A `const` item. -/
  | Const (ty : Ty) (body : BodyId)
  /-- A function declaration. -/
  | Fn (sig : FnSig) (generics : Generics) (body : BodyId)
  /-- A module. -/
  | Mod (m : Mod)
  /-- An external module, e.g. `extern { .. }`. -/
  | ForeignMod (fm : ForeignMod)
  /-- Module-level inline assembly (from `global_asm!`). -/
  | GlobalAsm (ga : GlobalAsm)
  /-- A type alias, e.g. `type Foo = Bar<u8>`. -/
  | TyAlias (ty : Ty) (generics : Generics)
  /-- An opaque `impl Trait` type alias, e.g. `type Foo = impl Bar;`. -/
  | OpaqueTy (o : OpaqueTy)
  /-- An enum definition. -/
  | Enum (def_ : EnumDef) (generics : Generics)
  /-- A struct definition. -/
  | Struct (data : VariantData) (generics : Generics)
  /-- A union definition. -/
  | Union (data : VariantData) (generics : Generics)
  /-- A trait definition. -/
  | Trait (auto : IsAuto) (unsafety : Unsafety) (generics : Generics)
      (bounds : GenericBounds) (items : List TraitItemRef)
  /-- A trait alias. -/
  | TraitAlias (generics : Generics) (bounds : GenericBounds)
  /-- An implementation, e.g. `impl<A> Trait for Foo { .. }`. -/
  | Impl (unsafety : Unsafety) (polarity : ImplPolarity)
      (defaultness : Defaultness) (constness : Constness)
      (generics : Generics) (of_trait : Option TraitRef)
      (self_ty : Ty) (items : List ImplItemRef)

/-- `hir.rs` line 2532: `ItemKind::generics` — the generics carried by
an item kind, `None` for the variants the source's match defaults. -/
def ItemKind.generics : ItemKind → Option Generics
  | ItemKind.Fn _ generics _
  | ItemKind.TyAlias _ generics
  | ItemKind.OpaqueTy ⟨generics, _, none, _⟩
  | ItemKind.Enum _ generics
  | ItemKind.Struct _ generics
  | ItemKind.Union _ generics
  | ItemKind.Trait _ _ generics _ _
  | ItemKind.Impl _ _ _ _ generics _ _ _ => some generics
  | _ => none

/-- `hir.rs` line 2395: an item. -/
structure Item where
  ident : Ident
  hir_id : HirId
  attrs : List Attribute
  kind : ItemKind
  vis : Visibility
  span : Span

/-- `syntax::tokenstream::TokenStream`, consumed by `hir.rs`: opaque to
this model. -/
structure TokenStream where
  id : Nat

/-- `hir.rs` line 724: a macro definition. -/
structure MacroDef where
  name : Name
  vis : Visibility
  attrs : List Attribute
  hir_id : HirId
  span : Span
  body : TokenStream
  legacy : Bool

/-- `hir.rs` line 601: the per-module item sets.  The source uses
`BTreeSet`s so that items are in the same order as in the list of all
items in `Crate`; modelled as sorted lists. -/
structure ModuleItems where
  items : List HirId
  trait_items : List TraitItemId
  impl_items : List ImplItemId

/-!
### The crate aggregate (`hir.rs` line 616)

The source stores items, trait items, impl items and bodies in
`BTreeMap`s — the comment at line 624 insists on `BTreeMap` precisely so
that `visit_all_item_likes` iterates over the ids in increasing order.
The maps are modelled by `BTreeModel`: strictly key-sorted association
lists.
-/

/-- `hir.rs` line 616: the top-level data structure that stores the
entire contents of the crate being compiled. -/
structure Crate where
  module : Mod
  attrs : List Attribute
  span : Span
  exported_macros : List MacroDef
  non_exported_macro_attrs : List Attribute
  /-- A `BTreeMap` so that `visit_all_items` iterates over the ids in
  increasing order (`hir.rs` lines 624–630). -/
  items : List (HirId × Item)
  trait_items : List (TraitItemId × TraitItem)
  impl_items : List (ImplItemId × ImplItem)
  bodies : List (BodyId × Body)
  trait_impls : List (DefId × List HirId)
  /-- Body ids in the order in which they appear in the crate. -/
  body_ids : List BodyId
  modules : List (HirId × ModuleItems)
  proc_macros : List HirId

/-- `hir.rs` line 652: `Crate::item` — `&self.items[&id]`.  The
`BTreeMap` `Index` panics when the key is absent; the panic is modelled
as `none`.  The method takes `&self`: it cannot modify the aggregate. -/
def Crate.item (c : Crate) (id : HirId) : Option Item :=
  BTreeModel.lookup id c.items

/-- `hir.rs` line 656: `Crate::trait_item` — `&self.trait_items[&id]`,
panic modelled as `none`. -/
def Crate.trait_item (c : Crate) (id : TraitItemId) : Option TraitItem :=
  BTreeModel.lookup id c.trait_items

/-- `hir.rs` line 660: `Crate::impl_item` — `&self.impl_items[&id]`,
panic modelled as `none`. -/
def Crate.impl_item (c : Crate) (id : ImplItemId) : Option ImplItem :=
  BTreeModel.lookup id c.impl_items

/-- `hir.rs` line 664: `Crate::body` — `&self.bodies[&id]`, panic
modelled as `none`. -/
def Crate.body (c : Crate) (id : BodyId) : Option Body :=
  BTreeModel.lookup id c.bodies

/-- The observable calls an `itemlikevisit::ItemLikeVisitor` receives:
a traversal of the crate is embedded as the list (or, for the parallel
traversal, the multiset) of these events. -/
inductive ItemLikeEvent where
  | VisitItem (item : Item)
  | VisitTraitItem (trait_item : TraitItem)
  | VisitImplItem (impl_item : ImplItem)

/-- `hir.rs` line 678: `Crate::visit_all_item_likes` — visits all items
in the crate in some deterministic order: the three `for` loops walk
`self.items`, then `self.trait_items`, then `self.impl_items`, each in
the map's iteration order, calling `visit_item` / `visit_trait_item` /
`visit_impl_item` on every entry's value.  Embedded as the event trace
the visitor receives. -/
def Crate.visit_all_item_likes (c : Crate) : List ItemLikeEvent :=
  (c.items.map fun kv => ItemLikeEvent.VisitItem kv.2)
    ++ (c.trait_items.map fun kv => ItemLikeEvent.VisitTraitItem kv.2)
    ++ (c.impl_items.map fun kv => ItemLikeEvent.VisitImplItem kv.2)

/-- `hir.rs` line 696: `Crate::par_visit_all_item_likes` — the parallel
version: `parallel!` runs the three passes concurrently and
`par_for_each_in` applies the visitor to every entry of each map in an
unspecified order.  Its observable effect is therefore the unordered
collection (multiset) of visit events. -/
def Crate.par_visit_all_item_likes (c : Crate) : Multiset ItemLikeEvent :=
  (↑(c.items.map fun kv => ItemLikeEvent.VisitItem kv.2) : Multiset ItemLikeEvent)
    + (↑(c.trait_items.map fun kv => ItemLikeEvent.VisitTraitItem kv.2) : Multiset ItemLikeEvent)
    + (↑(c.impl_items.map fun kv => ItemLikeEvent.VisitImplItem kv.2) : Multiset ItemLikeEvent)

/-! ### Example values for concrete instances -/

/-- A tiny example visibility. -/
def exampleVis : Visibility := ⟨VisibilityKind.Inherited, ⟨0, 0⟩⟩

/-- A tiny example item (an `extern crate`), with local index `n`. -/
def exampleItem (n : Nat) (name : Ident) : Item :=
  ⟨name, ⟨0, n⟩, [], ItemKind.ExternCrate none, exampleVis, ⟨0, 0⟩⟩

/-- A tiny example module. -/
def exampleMod : Mod := ⟨⟨0, 0⟩, []⟩

/-- A crate aggregate holding the given item map and nothing else. -/
def exampleCrate (items : List (HirId × Item)) : Crate :=
  Crate.mk exampleMod [] ⟨0, 0⟩ [] [] items [] [] [] [] [] [] []

/-! ### Helper lemmas -/

set_option maxHeartbeats 2000000 in
/-- `peel_drop_temps` always lands on a non-`DropTemps` expression. -/
theorem Expr.peel_not_wrapper (e : Expr) :
    e.peel_drop_temps.isDropTemps = false := by
  obtain ⟨h, k, a, s⟩ := e
  cases k
  case DropTemps inner =>
    have ih := Expr.peel_not_wrapper inner
    rw [show (Expr.mk h (ExprKind.DropTemps inner) a s).peel_drop_temps
        = inner.peel_drop_temps from rfl]
    exact ih
  all_goals rfl
termination_by sizeOf e
decreasing_by
  simp
  omega

/-- Unfolding equation of `walkTrace` with the `attach` plumbing removed. -/
theorem Pat.walkTrace_eq (it : Pat → Bool) (p : Pat) :
    Pat.walkTrace it p
      = if it p then p :: (p.walkSubpats.map (Pat.walkTrace it)).flatten
        else [p] := by
  rw [Pat.walkTrace]
  rw [List.attach_map_val]

/-- Flattening preserves pointwise sublists. -/
theorem flatten_map_sublist {α β : Type} (l : List α) (f g : α → List β)
    (h : ∀ x ∈ l, (f x).Sublist (g x)) :
    ((l.map f).flatten).Sublist ((l.map g).flatten) := by
  induction l with
  | nil => simp
  | cons hd tl ih =>
    simp only [List.map_cons, List.flatten_cons]
    exact List.Sublist.append (h hd (by simp))
      (ih fun x hx => h x (List.mem_cons_of_mem _ hx))

/-- Pruning only ever removes nodes: the pruned trace is a sublist of
the full left-to-right preorder trace. -/
theorem Pat.walkTrace_sublist (it : Pat → Bool) (p : Pat) :
    (Pat.walkTrace it p).Sublist (Pat.walkTrace (fun _ => true) p) := by
  rw [Pat.walkTrace_eq it p, Pat.walkTrace_eq (fun _ => true) p]
  simp only [if_true]
  by_cases h : it p
  · rw [if_pos h]
    exact List.Sublist.cons₂ p
      (flatten_map_sublist p.walkSubpats _ _
        (fun c hc => Pat.walkTrace_sublist it c))
  · rw [if_neg h]
    exact List.Sublist.cons₂ p (List.nil_sublist _)
termination_by sizeOf p
decreasing_by
  exact Pat.sizeOf_lt_of_mem_walkSubpats _ _ hc

/-- The trace of a pruned walk contains exactly the nodes `VisitedBy`
reaches: the root always, and a subtree's nodes exactly when the
callback accepted the subtree's parent. -/
theorem Pat.mem_walkTrace_iff (it : Pat → Bool) (p q : Pat) :
    q ∈ Pat.walkTrace it p ↔ Pat.VisitedBy it p q := by
  constructor
  · intro hq
    rw [Pat.walkTrace_eq] at hq
    by_cases h : it p
    · rw [if_pos h] at hq
      rcases List.mem_cons.mp hq with hq | hq
      · subst hq
        exact Pat.VisitedBy.refl q
      · rcases List.mem_flatten.mp hq with ⟨l, hl, hql⟩
        rcases List.mem_map.mp hl with ⟨c, hc, hcl⟩
        refine Pat.VisitedBy.step p c q h hc ?_
        exact (Pat.mem_walkTrace_iff it c q).mp (hcl ▸ hql)
    · rw [if_neg h] at hq
      have hq2 := List.mem_singleton.mp hq
      subst hq2
      exact Pat.VisitedBy.refl q
  · intro hv
    induction hv with
    | refl r =>
      rw [Pat.walkTrace_eq]
      by_cases h : it r
      · rw [if_pos h]
        exact List.mem_cons_self _ _
      · rw [if_neg h]
        exact List.mem_singleton.mpr rfl
    | step r c q hr hc _ ih =>
      rw [Pat.walkTrace_eq, if_pos hr]
      refine List.mem_cons.mpr (Or.inr ?_)
      exact List.mem_flatten.mpr
        ⟨Pat.walkTrace it c, List.mem_map.mpr ⟨c, hc, rfl⟩, ih⟩
termination_by sizeOf p
decreasing_by
  exact Pat.sizeOf_lt_of_mem_walkSubpats _ _ hc

/-! ### The claims -/

/-- C10: for every lifetime `L`, `Lifetime::is_elided(L)` returns true
exactly when `L`'s name is `Implicit`, `ImplicitObjectLifetimeDefault`
or `Underscore`; in particular a synthetic fresh lifetime
(`Param(Fresh(_))`) and an `Error` lifetime are reported as not elided. -/
theorem claim_C10_lifetime_is_elided :
    (∀ l : Lifetime, l.is_elided = l.name.is_elided)
    ∧ (∀ n : LifetimeName,
        n.is_elided = true ↔
          (n = LifetimeName.Implicit
            ∨ n = LifetimeName.ImplicitObjectLifetimeDefault
            ∨ n = LifetimeName.Underscore))
    ∧ (∀ k : Nat,
        (LifetimeName.Param (ParamName.Fresh k)).is_elided = false)
    ∧ LifetimeName.Error.is_elided = false := by
  refine ⟨fun l => rfl, fun n => ?_, fun k => rfl, rfl⟩
  cases n <;> simp [LifetimeName.is_elided]

/-- C7: for every body `B`, `Body::id(B)` returns a `BodyId` whose
`hir_id` is exactly `B.value.hir_id`. -/
theorem claim_C7_body_id (b : Body) :
    b.id = BodyId.mk b.value.hir_id ∧ (b.id).hir_id = b.value.hir_id :=
  ⟨rfl, rfl⟩

/-- C6: `peel_drop_temps` returns a non-`DropTemps` expression
unchanged; returns the innermost non-`DropTemps` expression of a chain
of `N` nested `DropTemps` wrappers for every `N ≥ 0`; and is
idempotent. -/
theorem claim_C6_peel_drop_temps :
    (∀ e : Expr, e.isDropTemps = false → e.peel_drop_temps = e)
    ∧ (∀ (n : Nat) (h : HirId) (a : AttrVec) (s : Span) (e : Expr),
        e.isDropTemps = false →
        ((Expr.wrapDropTemps h a s)^[n] e).peel_drop_temps = e)
    ∧ (∀ e : Expr, e.peel_drop_temps.peel_drop_temps = e.peel_drop_temps) := by
  have base : ∀ e : Expr, e.isDropTemps = false → e.peel_drop_temps = e := by
    intro e he
    obtain ⟨h, k, a, s⟩ := e
    cases k
    case DropTemps inner => exact Bool.noConfusion he
    all_goals rfl
  have chain : ∀ (n : Nat) (h : HirId) (a : AttrVec) (s : Span) (e : Expr),
      e.isDropTemps = false →
      ((Expr.wrapDropTemps h a s)^[n] e).peel_drop_temps = e := by
    intro n h a s
    induction n with
    | zero =>
      intro e he
      rw [Function.iterate_zero_apply]
      exact base e he
    | succ n ih =>
      intro e he
      rw [Function.iterate_succ_apply']
      have hstep : (Expr.wrapDropTemps h a s
            ((Expr.wrapDropTemps h a s)^[n] e)).peel_drop_temps
          = ((Expr.wrapDropTemps h a s)^[n] e).peel_drop_temps := rfl
      rw [hstep]
      exact ih e he
  exact ⟨base, chain, fun e => base _ (Expr.peel_not_wrapper e)⟩

/-- C6 witness: peeling two wrappers around an `Err` expression yields
that expression. -/
theorem claim_C6_witness :
    ((Expr.wrapDropTemps ⟨0, 1⟩ [] ⟨0, 0⟩)^[2]
        (Expr.mk ⟨0, 0⟩ ExprKind.Err [] ⟨0, 0⟩)).peel_drop_temps
      = Expr.mk ⟨0, 0⟩ ExprKind.Err [] ⟨0, 0⟩ :=
  claim_C6_peel_drop_temps.2.1 2 ⟨0, 1⟩ [] ⟨0, 0⟩
    (Expr.mk ⟨0, 0⟩ ExprKind.Err [] ⟨0, 0⟩) rfl

/-- C3: `Expr::is_place_expr` returns false for calls, method calls,
literals, struct-literals, closures and control-flow expressions
(`break`, `continue`, `return`, `loop`, `match`, blocks); true for a
resolved path to a local variable, to a static item, or whose resolution
is the error placeholder, and for a dereference (`*`); and for a field
or index expression exactly the value of "`p` accepts the base or the
base is itself a place expression". -/
theorem claim_C3_is_place_expr
    (p : Expr → Bool) (h : HirId) (a : AttrVec) (s : Span) :
    (∀ f args, (Expr.mk h (ExprKind.Call f args) a s).is_place_expr p = false)
    ∧ (∀ seg sp args,
        (Expr.mk h (ExprKind.MethodCall seg sp args) a s).is_place_expr p = false)
    ∧ (∀ l, (Expr.mk h (ExprKind.Lit l) a s).is_place_expr p = false)
    ∧ (∀ q fs b, (Expr.mk h (ExprKind.Struct q fs b) a s).is_place_expr p = false)
    ∧ (∀ cb d bid sp m,
        (Expr.mk h (ExprKind.Closure cb d bid sp m) a s).is_place_expr p = false)
    ∧ (∀ dest e, (Expr.mk h (ExprKind.Break dest e) a s).is_place_expr p = false)
    ∧ (∀ dest, (Expr.mk h (ExprKind.Continue dest) a s).is_place_expr p = false)
    ∧ (∀ e, (Expr.mk h (ExprKind.Ret e) a s).is_place_expr p = false)
    ∧ (∀ b lbl src, (Expr.mk h (ExprKind.Loop b lbl src) a s).is_place_expr p = false)
    ∧ (∀ scrut arms src,
        (Expr.mk h (ExprKind.Match scrut arms src) a s).is_place_expr p = false)
    ∧ (∀ b lbl, (Expr.mk h (ExprKind.Block b lbl) a s).is_place_expr p = false)
    ∧ (∀ oty sp segs id,
        (Expr.mk h (ExprKind.Path (QPath.Resolved oty
          (Path.mk sp (Res.Local id) segs))) a s).is_place_expr p = true)
    ∧ (∀ oty sp segs did,
        (Expr.mk h (ExprKind.Path (QPath.Resolved oty
          (Path.mk sp (Res.Def DefKind.Static did) segs))) a s).is_place_expr p = true)
    ∧ (∀ oty sp segs,
        (Expr.mk h (ExprKind.Path (QPath.Resolved oty
          (Path.mk sp Res.Err segs))) a s).is_place_expr p = true)
    ∧ (∀ e, (Expr.mk h (ExprKind.Unary UnOp.UnDeref e) a s).is_place_expr p = true)
    ∧ (∀ base i, (Expr.mk h (ExprKind.Field base i) a s).is_place_expr p
        = (p base || base.is_place_expr p))
    ∧ (∀ base idx, (Expr.mk h (ExprKind.Index base idx) a s).is_place_expr p
        = (p base || base.is_place_expr p)) := by
  refine ⟨?_, ?_, ?_, ?_, ?_, ?_, ?_, ?_, ?_, ?_, ?_, ?_, ?_, ?_, ?_, ?_, ?_⟩
  all_goals intros
  all_goals rfl

/-- C8 counterexample: the `TraitAlias` variant carries generics (here
one type parameter) yet `ItemKind::generics` returns `None`, refuting
"returns `None` exactly for the item variants that do not carry
generics". -/
theorem claim_C8_counterexample :
    (ItemKind.TraitAlias
        (Generics.mk
          [GenericParam.mk ⟨0, 1⟩ (ParamName.Plain "T") [] [] ⟨0, 0⟩ false
            (GenericParamKind.«Type» none none)]
          (WhereClause.mk [] ⟨0, 0⟩) ⟨0, 0⟩)
        []).generics = none := rfl

/-- C8 (amended): `ItemKind::generics` returns the carried `Generics`
for `Fn`, `TyAlias`, free-standing `OpaqueTy` (`impl_trait_fn == None`),
`Enum`, `Struct`, `Union`, `Trait` and `Impl`, and returns `None` for
every other variant — the variants that carry no generics (among them a
plain `use` import), but also `TraitAlias` and fn-return `OpaqueTy`
(`impl_trait_fn == Some`), which carry generics yet report none. -/
theorem claim_C8_generics_accessor :
    (∀ o, (ItemKind.ExternCrate o).generics = none)
    ∧ (∀ path k, (ItemKind.Use path k).generics = none)
    ∧ (∀ t m b, (ItemKind.Static t m b).generics = none)
    ∧ (∀ t b, (ItemKind.Const t b).generics = none)
    ∧ (∀ m, (ItemKind.Mod m).generics = none)
    ∧ (∀ fm, (ItemKind.ForeignMod fm).generics = none)
    ∧ (∀ ga, (ItemKind.GlobalAsm ga).generics = none)
    ∧ (∀ sig g b, (ItemKind.Fn sig g b).generics = some g)
    ∧ (∀ t g, (ItemKind.TyAlias t g).generics = some g)
    ∧ (∀ g bs org, (ItemKind.OpaqueTy ⟨g, bs, none, org⟩).generics = some g)
    ∧ (∀ g bs d org, (ItemKind.OpaqueTy ⟨g, bs, some d, org⟩).generics = none)
    ∧ (∀ ed g, (ItemKind.Enum ed g).generics = some g)
    ∧ (∀ vd g, (ItemKind.Struct vd g).generics = some g)
    ∧ (∀ vd g, (ItemKind.Union vd g).generics = some g)
    ∧ (∀ au us g bs its, (ItemKind.Trait au us g bs its).generics = some g)
    ∧ (∀ g bs, (ItemKind.TraitAlias g bs).generics = none)
    ∧ (∀ us pol df cn g otr st its,
        (ItemKind.Impl us pol df cn g otr st its).generics = some g) := by
  refine ⟨?_, ?_, ?_, ?_, ?_, ?_, ?_, ?_, ?_, ?_, ?_, ?_, ?_, ?_, ?_, ?_, ?_⟩
  all_goals intros
  all_goals rfl

/-- C5: the pruning pattern traversal `Pat::walk` (the spec's
"short-circuit recurse" mode) visits nodes strictly left-to-right: its
trace equals the node followed by its sub-patterns' traces in source
order when the callback accepts the node, is a sublist of the full
left-to-right preorder trace, and begins with the root; a callback
answering `false` on a node prunes exactly that node's sub-patterns
while the rest of the walk (later siblings included) continues — a node
is visited iff every proper ancestor on its path was accepted. -/
theorem claim_C5_pat_walk (it : Pat → Bool) (p q : Pat) :
    Pat.walkTrace it p
        = (if it p then p :: (p.walkSubpats.map (Pat.walkTrace it)).flatten
           else [p])
    ∧ (Pat.walkTrace it p).Sublist (Pat.walkTrace (fun _ => true) p)
    ∧ (Pat.walkTrace it p).head? = some p
    ∧ (q ∈ Pat.walkTrace it p ↔ Pat.VisitedBy it p q) := by
  refine ⟨Pat.walkTrace_eq it p, Pat.walkTrace_sublist it p, ?_,
    Pat.mem_walkTrace_iff it p q⟩
  rw [Pat.walkTrace_eq]
  by_cases h : it p
  · rw [if_pos h]
    rfl
  · rw [if_neg h]
    rfl

/-- C9: `Crate::item` / `trait_item` / `impl_item` / `body` return the
stored node when the identifier is a key of the corresponding map, and
fail fatally (`BTreeMap` `Index` panic, modelled as `none`) when it is
absent.  The methods take `&self`, so the aggregate is unchanged by
construction: a lookup is a pure function of the aggregate. -/
theorem claim_C9_lookup (c : Crate) :
    (∀ id v, (c.items.map Prod.fst).Nodup → (id, v) ∈ c.items →
      c.item id = some v)
    ∧ (∀ id, id ∉ c.items.map Prod.fst → c.item id = none)
    ∧ (∀ id v, (c.trait_items.map Prod.fst).Nodup → (id, v) ∈ c.trait_items →
      c.trait_item id = some v)
    ∧ (∀ id, id ∉ c.trait_items.map Prod.fst → c.trait_item id = none)
    ∧ (∀ id v, (c.impl_items.map Prod.fst).Nodup → (id, v) ∈ c.impl_items →
      c.impl_item id = some v)
    ∧ (∀ id, id ∉ c.impl_items.map Prod.fst → c.impl_item id = none)
    ∧ (∀ id v, (c.bodies.map Prod.fst).Nodup → (id, v) ∈ c.bodies →
      c.body id = some v)
    ∧ (∀ id, id ∉ c.bodies.map Prod.fst → c.body id = none) :=
  ⟨fun _ _ hnd hm => BTreeModel.lookup_eq_some hnd hm,
   fun _ hid => BTreeModel.lookup_eq_none hid,
   fun _ _ hnd hm => BTreeModel.lookup_eq_some hnd hm,
   fun _ hid => BTreeModel.lookup_eq_none hid,
   fun _ _ hnd hm => BTreeModel.lookup_eq_some hnd hm,
   fun _ hid => BTreeModel.lookup_eq_none hid,
   fun _ _ hnd hm => BTreeModel.lookup_eq_some hnd hm,
   fun _ hid => BTreeModel.lookup_eq_none hid⟩

/-- C9 witness: in a one-item crate, looking up the present key returns
the stored item and looking up an absent key is the modelled panic. -/
theorem claim_C9_witness :
    (exampleCrate [(⟨0, 0⟩, exampleItem 0 "a")]).item ⟨0, 0⟩
        = some (exampleItem 0 "a")
    ∧ (exampleCrate [(⟨0, 0⟩, exampleItem 0 "a")]).item ⟨0, 1⟩ = none :=
  ⟨(claim_C9_lookup _).1 ⟨0, 0⟩ (exampleItem 0 "a") (by decide)
      (List.mem_singleton.mpr rfl),
   (claim_C9_lookup _).2.1 ⟨0, 1⟩ (by decide)⟩

/-- C4: for a struct-literal expression with a resolved, non-self-
qualified path whose segment names are `"{{root}}"` (escaped braces),
`core`, `ops`, `RangeInclusive`: if the snippet at the span's end point
exists and ends with neither `\x7d` nor `)` the classifier answers
true; if the snippet ends with `\x7d` it answers false; and if the
snippet cannot be retrieved it degrades to false rather than erroring. -/
theorem claim_C4_range_literal
    (sm : SourceMap) (res : Res) (psp : Span)
    (s1 s2 s3 s4 : PathSegment) (h : HirId) (a : AttrVec) (s : Span)
    (fs : List Field) (base : Option Expr) (str : String)
    (h1 : s1.ident = "\x7b\x7broot\x7d\x7d") (h2 : s2.ident = "core")
    (h3 : s3.ident = "ops") (h4 : s4.ident = "RangeInclusive") :
    (sm.span_to_snippet (sm.end_point s) = some str →
      str_ends_with str ("\x7d") = false →
      str_ends_with str (")") = false →
      is_range_literal sm
        (Expr.mk h (ExprKind.Struct
          (QPath.Resolved none (Path.mk psp res [s1, s2, s3, s4])) fs base) a s)
        = true)
    ∧ (sm.span_to_snippet (sm.end_point s) = some str →
      str_ends_with str ("\x7d") = true →
      is_range_literal sm
        (Expr.mk h (ExprKind.Struct
          (QPath.Resolved none (Path.mk psp res [s1, s2, s3, s4])) fs base) a s)
        = false)
    ∧ (sm.span_to_snippet (sm.end_point s) = none →
      is_range_literal sm
        (Expr.mk h (ExprKind.Struct
          (QPath.Resolved none (Path.mk psp res [s1, s2, s3, s4])) fs base) a s)
        = false) := by
  have hpath : is_range_path (Path.mk psp res [s1, s2, s3, s4]) = true := by
    simp only [is_range_path, Path.segments, List.map_cons, List.map_nil]
    rw [h1, h2, h3, h4]
    decide
  have hred : is_range_literal sm
      (Expr.mk h (ExprKind.Struct
        (QPath.Resolved none (Path.mk psp res [s1, s2, s3, s4])) fs base) a s)
      = (is_range_path (Path.mk psp res [s1, s2, s3, s4]) && range_is_lit sm s) :=
    rfl
  refine ⟨?_, ?_, ?_⟩
  · intro hs he1 he2
    have hlit : range_is_lit sm s = true := by
      simp only [range_is_lit]
      rw [hs]
      show (!(str_ends_with str ("\x7d") || str_ends_with str (")"))) = true
      rw [he1, he2]
      rfl
    rw [hred, hpath, hlit]
    rfl
  · intro hs he1
    have hlit : range_is_lit sm s = false := by
      simp only [range_is_lit]
      rw [hs]
      show (!(str_ends_with str ("\x7d") || str_ends_with str (")"))) = false
      rw [he1]
      rfl
    rw [hred, hpath, hlit]
    rfl
  · intro hs
    have hlit : range_is_lit sm s = false := by
      simp only [range_is_lit]
      rw [hs]
    rw [hred, hpath, hlit]
    rfl

/-- C4 witness: a concrete source map whose snippets end in `..`
classifies the `RangeInclusive` struct literal as a range literal. -/
theorem claim_C4_witness :
    is_range_literal ⟨fun sp => sp, fun _ => some ".."⟩
      (Expr.mk ⟨0, 9⟩ (ExprKind.Struct
        (QPath.Resolved none (Path.mk ⟨0, 0⟩ Res.Err
          [PathSegment.mk "\x7b\x7broot\x7d\x7d" none none none false,
           PathSegment.mk "core" none none none false,
           PathSegment.mk "ops" none none none false,
           PathSegment.mk "RangeInclusive" none none none false])) [] none)
        [] ⟨0, 5⟩) = true :=
  (claim_C4_range_literal ⟨fun sp => sp, fun _ => some ".."⟩ Res.Err ⟨0, 0⟩
      (PathSegment.mk "\x7b\x7broot\x7d\x7d" none none none false)
      (PathSegment.mk "core" none none none false)
      (PathSegment.mk "ops" none none none false)
      (PathSegment.mk "RangeInclusive" none none none false)
      ⟨0, 9⟩ [] ⟨0, 5⟩ [] none ".." rfl rfl rfl rfl).1 rfl (by decide) (by decide)

/-- C1: sequential whole-crate visitation visits all items first, then
all trait items, then all impl items (the trace is the concatenation of
the three groups); each group is in strictly increasing key order of
its map; and the trace is independent of the order in which the entries
were inserted into the `BTreeMap`s.  Two sequential visitations of the
same unmutated aggregate coincide since the trace is a pure function of
the aggregate (the last equation with the identity permutation). -/
theorem claim_C1_sequential_visitation
    (li li' : List (HirId × Item))
    (lt lt' : List (TraitItemId × TraitItem))
    (lm lm' : List (ImplItemId × ImplItem))
    (mo : Mod) (ats : List Attribute) (sp : Span) (em : List MacroDef)
    (ne : List Attribute) (bo : List (BodyId × Body))
    (ti : List (DefId × List HirId)) (bi : List BodyId)
    (ms : List (HirId × ModuleItems)) (pm : List HirId)
    (hpi : li.Perm li') (hpt : lt.Perm lt') (hpm : lm.Perm lm')
    (hni : (li.map Prod.fst).Nodup) (hnt : (lt.map Prod.fst).Nodup)
    (hnm : (lm.map Prod.fst).Nodup) :
    (Crate.mk mo ats sp em ne (BTreeModel.ofList li) (BTreeModel.ofList lt)
        (BTreeModel.ofList lm) bo ti bi ms pm).visit_all_item_likes
      = ((BTreeModel.ofList li).map fun kv => ItemLikeEvent.VisitItem kv.2)
        ++ ((BTreeModel.ofList lt).map fun kv => ItemLikeEvent.VisitTraitItem kv.2)
        ++ ((BTreeModel.ofList lm).map fun kv => ItemLikeEvent.VisitImplItem kv.2)
    ∧ (BTreeModel.ofList li).Pairwise BTreeModel.entryLt
    ∧ (BTreeModel.ofList lt).Pairwise BTreeModel.entryLt
    ∧ (BTreeModel.ofList lm).Pairwise BTreeModel.entryLt
    ∧ (Crate.mk mo ats sp em ne (BTreeModel.ofList li) (BTreeModel.ofList lt)
        (BTreeModel.ofList lm) bo ti bi ms pm).visit_all_item_likes
      = (Crate.mk mo ats sp em ne (BTreeModel.ofList li') (BTreeModel.ofList lt')
          (BTreeModel.ofList lm') bo ti bi ms pm).visit_all_item_likes := by
  refine ⟨rfl, BTreeModel.sorted_ofList li, BTreeModel.sorted_ofList lt,
    BTreeModel.sorted_ofList lm, ?_⟩
  rw [BTreeModel.ofList_eq_of_perm hpi hni,
    BTreeModel.ofList_eq_of_perm hpt hnt,
    BTreeModel.ofList_eq_of_perm hpm hnm]

/-- C1 witness: inserting two items in either order yields the same
visitation trace. -/
theorem claim_C1_witness :
    (Crate.mk exampleMod [] ⟨0, 0⟩ [] []
        (BTreeModel.ofList
          [(⟨0, 1⟩, exampleItem 1 "b"), (⟨0, 0⟩, exampleItem 0 "a")])
        (BTreeModel.ofList ([] : List (TraitItemId × TraitItem)))
        (BTreeModel.ofList ([] : List (ImplItemId × ImplItem)))
        [] [] [] [] []).visit_all_item_likes
      = (Crate.mk exampleMod [] ⟨0, 0⟩ [] []
          (BTreeModel.ofList
            [(⟨0, 0⟩, exampleItem 0 "a"), (⟨0, 1⟩, exampleItem 1 "b")])
          (BTreeModel.ofList ([] : List (TraitItemId × TraitItem)))
          (BTreeModel.ofList ([] : List (ImplItemId × ImplItem)))
          [] [] [] [] []).visit_all_item_likes :=
  (claim_C1_sequential_visitation _ _ _ _ _ _ _ _ _ _ _ _ _ _ _ _
      (List.Perm.swap _ _ _) (List.Perm.refl _) (List.Perm.refl _)
      (by decide) (by decide) (by decide)).2.2.2.2

/-- Events obtained from map values inherit distinctness from the
values' node identifiers. -/
theorem nodup_map_snd {K β γ δ : Type} (l : List (K × β)) (idf : β → γ)
    (evf : β → δ) (hinj : Function.Injective evf)
    (hnd : (l.map fun kv => idf kv.2).Nodup) :
    (l.map fun kv => evf kv.2).Nodup := by
  have h0 : (l.map fun kv => idf kv.2) = (l.map fun kv => kv.2).map idf := by
    rw [List.map_map]
    rfl
  rw [h0] at hnd
  have h1 := hnd.of_map idf
  have h2 := h1.map hinj
  have h3 : (l.map fun kv => kv.2).map evf = l.map fun kv => evf kv.2 := by
    rw [List.map_map]
    rfl
  rwa [h3] at h2

/-- C2: the multiset of visit events of the parallel whole-crate
visitation equals the multiset of the sequential visitation — the same
set of nodes is visited, and (for an aggregate whose stored nodes carry
pairwise distinct identifiers, the spec's identifier-uniqueness
invariant) each node is visited exactly once by each traversal: both
traces are duplicate-free.  Only order may differ, since the parallel
side is an unordered multiset. -/
theorem claim_C2_par_visit_eq_seq (c : Crate)
    (hni : (c.items.map fun kv => (kv.2).hir_id).Nodup)
    (hnt : (c.trait_items.map fun kv => (kv.2).hir_id).Nodup)
    (hnm : (c.impl_items.map fun kv => (kv.2).hir_id).Nodup) :
    (↑c.visit_all_item_likes : Multiset ItemLikeEvent)
        = c.par_visit_all_item_likes
    ∧ c.visit_all_item_likes.Nodup
    ∧ c.par_visit_all_item_likes.Nodup := by
  have hms : (↑c.visit_all_item_likes : Multiset ItemLikeEvent)
      = c.par_visit_all_item_likes := by
    simp only [Crate.visit_all_item_likes, Crate.par_visit_all_item_likes]
    rw [Multiset.coe_add, Multiset.coe_add]
  have hitems := nodup_map_snd c.items Item.hir_id ItemLikeEvent.VisitItem
    (fun a b hab => by injection hab) hni
  have htraits := nodup_map_snd c.trait_items TraitItem.hir_id
    ItemLikeEvent.VisitTraitItem (fun a b hab => by injection hab) hnt
  have himpls := nodup_map_snd c.impl_items ImplItem.hir_id
    ItemLikeEvent.VisitImplItem (fun a b hab => by injection hab) hnm
  have d2 : (c.trait_items.map fun kv => ItemLikeEvent.VisitTraitItem kv.2).Disjoint
      (c.impl_items.map fun kv => ItemLikeEvent.VisitImplItem kv.2) := by
    intro e he1 he2
    rcases List.mem_map.mp he1 with ⟨kv, _, hkv⟩
    rcases List.mem_map.mp he2 with ⟨kv2, _, hkv2⟩
    rw [← hkv] at hkv2
    exact ItemLikeEvent.noConfusion hkv2
  have d1 : (c.items.map fun kv => ItemLikeEvent.VisitItem kv.2).Disjoint
      ((c.trait_items.map fun kv => ItemLikeEvent.VisitTraitItem kv.2)
        ++ (c.impl_items.map fun kv => ItemLikeEvent.VisitImplItem kv.2)) := by
    intro e he1 he2
    rcases List.mem_map.mp he1 with ⟨kv, _, hkv⟩
    rcases List.mem_append.mp he2 with he2 | he2 <;>
      rcases List.mem_map.mp he2 with ⟨kv2, _, hkv2⟩ <;> rw [← hkv] at hkv2 <;>
      exact ItemLikeEvent.noConfusion hkv2
  have hseq : c.visit_all_item_likes.Nodup := by
    simp only [Crate.visit_all_item_likes]
    rw [List.append_assoc, List.nodup_append]
    refine ⟨hitems, ?_, d1⟩
    rw [List.nodup_append]
    exact ⟨htraits, himpls, d2⟩
  refine ⟨hms, hseq, ?_⟩
  rw [← hms]
  exact Multiset.coe_nodup.mpr hseq

/-- C2 witness: on a one-item crate the sequential trace's multiset is
the parallel visitation's multiset. -/
theorem claim_C2_witness :
    (↑(exampleCrate [(⟨0, 0⟩, exampleItem 0 "a")]).visit_all_item_likes
        : Multiset ItemLikeEvent)
      = (exampleCrate [(⟨0, 0⟩, exampleItem 0 "a")]).par_visit_all_item_likes :=
  (claim_C2_par_visit_eq_seq (exampleCrate [(⟨0, 0⟩, exampleItem 0 "a")])
      (by simp [exampleCrate]) (by simp [exampleCrate])
      (by simp [exampleCrate])).1

end RustcHir
